import Mathlib

/-!
# Verification of the Maestro kernel core specification

This file gives a shallow embedding, in Lean 4, of the parts of the Maestro
kernel sources that the specification's claims are about:

* the virtual-memory transaction layer (`kernel/src/memory/vmem/mod.rs`);
* the process address-space fault handler and access check
  (`src/process/mem_space/mod.rs`, older tree);
* the file-descriptor table (`kernel/src/file/fd.rs`);
* the device registry with staged device-file creation
  (`kernel/src/device/mod.rs`);
* the `splice` system call (`kernel/src/syscall/splice.rs`).

Machine integers are modelled as `Nat` with explicit bounds where overflow
matters.  Fallible operations return explicit result types.  Where a function
of the repository is not present under the provided sources (the `utils`
crate, the arch-specific `vmem::x86` module, the pipe buffer), its behaviour
is modelled from the specification text and is marked `Modelled from the
spec:` in its doc comment.
-/

/-! ## Constants -/

/-- Page size in bytes (`PAGE_SIZE` in `utils::limits`). -/
def PAGE_SIZE : Nat := 4096

/-- End of the process (user) address space, begin of kernelspace
(`memory::PROCESS_END`, `0xc0000000` on 32-bit x86). -/
def PROCESS_END : Nat := 0xc0000000

/-- The source's `usize::MAX` on the 32-bit target. -/
def USIZE_MAX : Nat := 0xffffffff

/-- Per-process limit on file-descriptor ids (`limits::OPEN_MAX`). -/
def OPEN_MAX : Nat := 1024

/-- System-wide limit on open file descriptors
(`TOTAL_MAX_FD = u32::MAX as usize` in `kernel/src/file/fd.rs`). -/
def TOTAL_MAX_FD : Nat := 4294967295

/-- The source's `i32::MAX`, the cap applied to the `splice` length argument. -/
def I32_MAX : Nat := 2147483647

/-! ## Virtual memory transactions (`kernel/src/memory/vmem/mod.rs`)

The page table managed by the arch driver is modelled as a map from a
virtual address to an optional entry `(physaddr, flags)`.  The `vmem::x86`
module is not among the provided sources; its `map`/`unmap`/`Rollback`
operations are modelled from the spec (§4.3): `map` installs a PTE and
returns a token that, when applied, restores the prior PTE (including the
"not present" state); `unmap` is symmetric.  Allocation failures of
intermediate directory pages are abstracted away (the modelled arch
operations always succeed); the `AllocError` failures that remain are the
kernelspace checks of `VMemTransaction`, which are taken verbatim from
`kernel/src/memory/vmem/mod.rs`. -/

/-- A page-table entry: physical address and architecture flags. -/
abbrev VEntry := Nat × Nat

/-- The (arch-level) page table: virtual address to optional entry. -/
abbrev VTable := Nat → Option VEntry

/-- The source's `VMem::translate`: the physical address mapped at `v`, if present. -/
def vmem_translate (t : VTable) (v : Nat) : Option Nat :=
  (t v).map (fun e => e.1)

/-- Modelled from the spec: an `x86::Rollback` token records the virtual
address of the single-page edit and the prior entry at that address. -/
structure VRollback where
  virt : Nat
  prev : Option VEntry

/-- Applying a rollback token restores the prior entry at its address. -/
def VRollback.apply (r : VRollback) (t : VTable) : VTable :=
  fun w => if w = r.virt then r.prev else t w

/-- Modelled from the spec: `x86::map` installs the PTE and returns the
rollback token for the prior state. -/
def x86_map (t : VTable) (phys virt flags : Nat) : VTable × VRollback :=
  ((fun w => if w = virt then some (phys, flags) else t w), ⟨virt, t virt⟩)

/-- Modelled from the spec: `x86::unmap` removes the PTE and returns the
rollback token for the prior state. -/
def x86_unmap (t : VTable) (virt : Nat) : VTable × VRollback :=
  ((fun w => if w = virt then none else t w), ⟨virt, t virt⟩)

/-- The error of `AllocResult` (surfaced as `ENOMEM` at the syscall
boundary). -/
inductive AllocErr where
  | outOfMemory
deriving DecidableEq

/-- The source's `usize::checked_add`. -/
def checked_add (a b : Nat) : Option Nat :=
  if a + b ≤ USIZE_MAX then some (a + b) else none

/-- Multiplication in 32-bit `usize` arithmetic: the product wraps around
on overflow (release-build semantics). -/
def usize_mul (a b : Nat) : Nat :=
  (a * b) % (USIZE_MAX + 1)

/-- The source's `is_kernelspace` (`vmem/mod.rs:45`): whether the range of `pages` pages
starting at `virtaddr` overlaps the kernelspace.  The byte size
`pages * PAGE_SIZE` is computed in 32-bit `usize` arithmetic and wraps on
overflow — only the subsequent addition is guarded by `checked_add`, whose
overflow counts as overlapping. -/
def is_kernelspace (virtaddr pages : Nat) : Bool :=
  match checked_add virtaddr (usize_mul pages PAGE_SIZE) with
  | none => true
  | some e => decide (PROCESS_END < e)

/-- A `VMemTransaction` in progress: the current page table together with
the vector of rollback tokens (push order = acquisition order). -/
structure VTx where
  table : VTable
  rollback : List VRollback

/-- The source's `map_impl` followed by the rollback push: one successful single-page
map inside a transaction. -/
def vtx_map_one (st : VTx) (phys virt flags : Nat) : VTx :=
  let r := x86_map st.table phys virt flags
  ⟨r.1, st.rollback ++ [r.2]⟩

/-- The source's `unmap_impl` followed by the rollback push. -/
def vtx_unmap_one (st : VTx) (virt : Nat) : VTx :=
  let r := x86_unmap st.table virt
  ⟨r.1, st.rollback ++ [r.2]⟩

/-- The source's `VMemTransaction::map` (`vmem/mod.rs:181`): errors without touching the
table if kernelspace modification is denied. -/
def vtx_map (kernel : Bool) (st : VTx) (phys virt flags : Nat) :
    Except AllocErr Unit × VTx :=
  if !kernel && is_kernelspace virt 1 then (.error .outOfMemory, st)
  else (.ok (), vtx_map_one st phys virt flags)

/-- The per-page loop of `map_range`: pages `0, 1, ..., n-1` mapped in
increasing order (page `k` is the last edit of `vtx_map_pages _ _ _ _
(k+1)`). -/
def vtx_map_pages (st : VTx) (phys virt flags : Nat) : Nat → VTx
  | 0 => st
  | k + 1 =>
    vtx_map_one (vtx_map_pages st phys virt flags k)
      (phys + k * PAGE_SIZE) (virt + k * PAGE_SIZE) flags

/-- The source's `VMemTransaction::map_range` (`vmem/mod.rs:193`). -/
def vtx_map_range (kernel : Bool) (st : VTx) (phys virt pages flags : Nat) :
    Except AllocErr Unit × VTx :=
  if pages = 0 then (.ok (), st)
  else if pages = 1 then vtx_map kernel st phys virt flags
  else if !kernel && is_kernelspace virt pages then (.error .outOfMemory, st)
  else (.ok (), vtx_map_pages st phys virt flags pages)

/-- The source's `VMemTransaction::unmap` (`vmem/mod.rs:234`). -/
def vtx_unmap (kernel : Bool) (st : VTx) (virt : Nat) :
    Except AllocErr Unit × VTx :=
  if !kernel && is_kernelspace virt 1 then (.error .outOfMemory, st)
  else (.ok (), vtx_unmap_one st virt)

/-- The per-page loop of `unmap_range`, in increasing page order. -/
def vtx_unmap_pages (st : VTx) (virt : Nat) : Nat → VTx
  | 0 => st
  | k + 1 => vtx_unmap_one (vtx_unmap_pages st virt k) (virt + k * PAGE_SIZE)

/-- The source's `VMemTransaction::unmap_range` (`vmem/mod.rs:246`). -/
def vtx_unmap_range (kernel : Bool) (st : VTx) (virt pages : Nat) :
    Except AllocErr Unit × VTx :=
  if pages = 0 then (.ok (), st)
  else if pages = 1 then vtx_unmap kernel st virt
  else if !kernel && is_kernelspace virt pages then (.error .outOfMemory, st)
  else (.ok (), vtx_unmap_pages st virt pages)

/-- The source's `VMemTransaction::commit` (`vmem/mod.rs:269`): clears the rollback
vector. -/
def vtx_commit (st : VTx) : VTx :=
  ⟨st.table, []⟩

/-- The source's `Drop for VMemTransaction` (`vmem/mod.rs:274`): replay the rollback
tokens in reverse order of acquisition; the resulting page table. -/
def vtx_drop (st : VTx) : VTable :=
  st.rollback.foldr VRollback.apply st.table

/-- One edit request issued to a transaction. -/
inductive VOp where
  | mapOne (phys virt flags : Nat)
  | mapRange (phys virt pages flags : Nat)
  | unmapOne (virt : Nat)
  | unmapRange (virt pages : Nat)

/-- Issue one edit to the transaction, keeping the resulting state (a failed
edit leaves the state untouched, as in the source). -/
def vtx_apply_op (kernel : Bool) (st : VTx) : VOp → VTx
  | .mapOne p v f => (vtx_map kernel st p v f).2
  | .mapRange p v n f => (vtx_map_range kernel st p v n f).2
  | .unmapOne v => (vtx_unmap kernel st v).2
  | .unmapRange v n => (vtx_unmap_range kernel st v n).2

/-- Run a sequence of edits on a transaction. -/
def vtx_run (kernel : Bool) (st : VTx) (ops : List VOp) : VTx :=
  ops.foldl (vtx_apply_op kernel) st

/-! ## Process address space (`src/process/mem_space/mod.rs`, older tree)

Only the parts the claims are about are embedded: the mapping lookup, the
page-fault handler and the access check.  The internals of
`MemMapping::map` (the per-page fault resolver in the missing `mapping.rs`)
are modelled as outcome oracles attached to each mapping: `resolve1` is the
outcome of the first `mapping.map(offset)` attempt and `resolve2` the
outcome of the retry performed after `oom::kill()`. -/

/-- The source's `vmem::x86::PAGE_FAULT_PRESENT` (module not among the sources).
Modelled from the x86 architecture: bit 0 of the page-fault error code,
set when the faulting page was present (protection violation), clear when
it was not present. -/
def PAGE_FAULT_PRESENT : Nat := 1

/-- The source's `vmem::x86::PAGE_FAULT_USER` (module not among the sources).  Modelled
from the x86 architecture: bit 2 of the page-fault error code, set when the
fault originated from user mode (ring 3). -/
def PAGE_FAULT_USER : Nat := 4

/-- A `MemMapping`: begin address, size in pages, and the outcome oracles
for its fault resolver (see the section comment). -/
structure MemMapping where
  begin : Nat
  size : Nat
  resolve1 : Nat → Bool
  resolve2 : Nat → Bool

/-- The mappings of a `MemSpace` (the gaps play no role in the claims
below). -/
structure MemSpace where
  mappings : List MemMapping

/-- The source's `MemSpace::get_mapping_for` (`mem_space/mod.rs:194`): the mapping whose
range `[begin, begin + size * PAGE_SIZE)` contains `ptr`, if any. -/
def get_mapping_for (mappings : List MemMapping) (ptr : Nat) : Option MemMapping :=
  mappings.find? (fun m =>
    decide (m.begin ≤ ptr) && decide (ptr < m.begin + m.size * PAGE_SIZE))

/-- Observable outcome of `MemSpace::handle_page_fault`.  `resolved` carries
the page index passed to `mapping.map` and `mapping.update_vmem` (the PTE
invalidated for the current CPU); `panicked` is the `kernel_panic!` path
taken when the resolver fails even after the OOM killer ran. -/
inductive FaultOutcome where
  | unresolved
  | resolved (offset : Nat)
  | panicked
deriving DecidableEq

/-- The source's `MemSpace::handle_page_fault` (`mem_space/mod.rs:309`): returns
`unresolved` (`false` in the source) when the fault code's PRESENT bit is
clear or no mapping covers the address; otherwise delegates to the covering
mapping at page index `(virt - begin) / PAGE_SIZE`, invoking the OOM killer
and retrying once on failure. -/
def handle_page_fault (ms : MemSpace) (virt code : Nat) : FaultOutcome :=
  if code &&& PAGE_FAULT_PRESENT = 0 then .unresolved
  else
    match get_mapping_for ms.mappings virt with
    | none => .unresolved
    | some m =>
      let offset := (virt - m.begin) / PAGE_SIZE
      if m.resolve1 offset then .resolved offset
      else if m.resolve2 offset then .resolved offset
      else .panicked

/-- Modelled from the spec: "the fault code indicates a kernel-ring
violation" (§4.5) — no code in the provided sources decodes such a
condition.  A ring-protection violation requires a protection fault
(PRESENT bit set: the page was there) on a user-mode access (USER bit
set). -/
def kernelRingViolation (code : Nat) : Bool :=
  decide (code &&& PAGE_FAULT_PRESENT ≠ 0) && decide (code &&& PAGE_FAULT_USER ≠ 0)

/-- The source's `MemSpace::can_access` (`mem_space/mod.rs:224`), verbatim from the
source: the body is a TODO stub that ignores its arguments and returns
`true`. -/
def can_access (_ms : MemSpace) (_ptr _size : Nat) (_user _write : Bool) : Bool :=
  true

/-! ## File descriptor table (`kernel/src/file/fd.rs`)

A table is a vector of optional descriptors.  An open-file description is
identified by a numeric id (`openFile`); descriptor duplication copies the
id, modelling the shared `Arc<Mutex<OpenFile>>`.  `FdRes` adds a `panicked`
alternative to `EResult` for the out-of-bounds slice `self.0[min..]`
(`min > len` aborts in Rust); the `utils` collections are not among the
sources, and the repository's own `Vec` (`src/util/collections/vec.rs`)
delegates range indexing to the standard slice operations, which panic out
of range. -/

/-- The errno values appearing in the embedded operations. -/
inductive Errno where
  | EBADF
  | EMFILE
  | ENFILE
  | EEXIST
  | ESPIPE
deriving DecidableEq

/-- Result of a fallible file-descriptor operation. -/
inductive FdRes (α : Type) where
  | ok (val : α)
  | err (e : Errno)
  | panicked
deriving DecidableEq

/-- A `FileDescriptor`: per-descriptor flags and the shared open-file
description it points to. -/
structure FileDescr where
  flags : Int
  openFile : Nat
deriving DecidableEq

/-- The source's `FD_CLOEXEC`. -/
def FD_CLOEXEC : Int := 1

/-- The file-descriptor table (`FileDescriptorTable`). -/
abbrev FDTable := List (Option FileDescr)

/-- The source's `NewFDConstraint`. -/
inductive NewFDConstraint where
  | noCons
  | fixed (id : Nat)
  | minCons (val : Nat)

/-- The source's `self.0[min..].iter().enumerate().find(|(_, fd)| fd.is_none())`: the
index of the first hole, relative to the start of the slice. -/
def find_hole : FDTable → Option Nat
  | [] => none
  | none :: _ => some 0
  | some _ :: rest => (find_hole rest).map (fun i => i + 1)

/-- The source's `FileDescriptorTable::get_available_fd` (`fd.rs:150`), verbatim: the
result of `find` on the slice `self.0[min..]` is returned as-is (the
enumeration index is relative to `min`); slicing with `min` beyond the
table length panics. -/
def get_available_fd (t : FDTable) (min : Option Nat) : FdRes Nat :=
  let m := min.getD 0
  if t.length < m then .panicked
  else
    match find_hole (t.drop m) with
    | some i => .ok i
    | none =>
      let id := max t.length m
      if id < OPEN_MAX then .ok id else .err .EMFILE

/-- The source's `FileDescriptorTable::extend` (`fd.rs:175`): resize the table so that
slot `id` exists. -/
def fd_extend (t : FDTable) (id : Nat) : FDTable :=
  if id < t.length then t else t ++ List.replicate (id + 1 - t.length) none

/-- The source's `FileDescriptorTable::create_fd` (`fd.rs:191`): allocate the lowest
available id, extend and insert.  The new state accompanies the result; on
error the table is returned unchanged. -/
def create_fd (t : FDTable) (flags : Int) (openFile : Nat) : FdRes Nat × FDTable :=
  match get_available_fd t none with
  | .ok id => (.ok id, (fd_extend t id).set id (some ⟨flags, openFile⟩))
  | .err e => (.err e, t)
  | .panicked => (.panicked, t)

/-- The source's `FileDescriptorTable::get_fd` (`fd.rs:208`): a negative id fails the
`c_int → usize` conversion and is rejected with `EBADF` before any slot is
inspected; otherwise a missing or empty slot is `EBADF`. -/
def get_fd (t : FDTable) (id : Int) : FdRes FileDescr :=
  if id < 0 then .err .EBADF
  else
    match t.get? id.toNat with
    | some (some fd) => .ok fd
    | _ => .err .EBADF

/-- The source's `FileDescriptorTable::get_fd_mut` (`fd.rs:219`): same lookup as
`get_fd`. -/
def get_fd_mut (t : FDTable) (id : Int) : FdRes FileDescr :=
  if id < 0 then .err .EBADF
  else
    match t.get? id.toNat with
    | some (some fd) => .ok fd
    | _ => .err .EBADF

/-- The source's `FileDescriptorTable::duplicate_fd` (`fd.rs:234`). -/
def duplicate_fd (t : FDTable) (id : Int) (constraint : NewFDConstraint)
    (cloexec : Bool) : FdRes Nat × FDTable :=
  let newIdRes : FdRes Nat :=
    match constraint with
    | .noCons => get_available_fd t none
    | .fixed f => if OPEN_MAX ≤ f then .err .EMFILE else .ok f
    | .minCons m => get_available_fd t (some m)
  match newIdRes with
  | .err e => (.err e, t)
  | .panicked => (.panicked, t)
  | .ok newId =>
    match get_fd t id with
    | .err e => (.err e, t)
    | .panicked => (.panicked, t)
    | .ok oldFd =>
      let newFd : FileDescr := ⟨if cloexec then FD_CLOEXEC else 0, oldFd.openFile⟩
      (.ok newId, (fd_extend t newId).set newId (some newFd))

/-- The `rfind` computing the new length in `close_fd`: one past the last
occupied slot. -/
def lastSomeLen (t : FDTable) : Nat :=
  match t.reverse.findIdx? (fun o => o.isSome) with
  | some j => t.length - j
  | none => 0

/-- The source's `FileDescriptorTable::close_fd` (`fd.rs:286`): negative ids, missing
slots and empty slots are `EBADF` with the table untouched; otherwise the
slot is emptied and the trailing empty slots are truncated.  The effects of
`FileDescriptor::close` on the open file are outside the table and not
modelled. -/
def close_fd (t : FDTable) (id : Int) : FdRes Unit × FDTable :=
  if id < 0 then (.err .EBADF, t)
  else
    match t.get? id.toNat with
    | none => (.err .EBADF, t)
    | some none => (.err .EBADF, t)
    | some (some _) =>
      let t1 := t.set id.toNat none
      (.ok (), t1.take (lastSomeLen t1))

/-- The source's `increment_total` (`fd.rs:49`): bump the system-wide open-descriptor
counter, failing with `ENFILE` at the ceiling. -/
def increment_total (total : Nat) : FdRes Nat :=
  if TOTAL_MAX_FD ≤ total then .err .ENFILE else .ok (total + 1)

/-- The source's `decrement_total` (`fd.rs:60`). -/
def decrement_total (total : Nat) : Nat :=
  total - 1

/-- The system-wide counter (`TOTAL_FD`) together with one process's
table. -/
structure FdSysState where
  total : Nat
  table : FDTable
deriving DecidableEq

/-- The source's `create_fd` as it acts on the whole system state.  Faithful to the
source call graph: nothing in `fd.rs` (or the rest of the provided
sources) calls `increment_total`, so the counter is untouched. -/
def create_fd_sys (st : FdSysState) (flags : Int) (openFile : Nat) :
    FdRes Nat × FdSysState :=
  let r := create_fd st.table flags openFile
  (r.1, ⟨st.total, r.2⟩)

/-- The index of the lowest free slot of a table (slots beyond the length
count as free): the specification's "lowest would-be index". -/
def lowestFree (t : FDTable) : Nat :=
  match find_hole t with
  | some i => i
  | none => t.length

/-- Whether slot `i` of the table is free (empty or beyond the length). -/
def isFreeSlot (t : FDTable) (i : Nat) : Bool :=
  (t.getD i none).isNone

/-! ## Device registry (`kernel/src/device/mod.rs`)

The registry is the global `DEVICES` map plus the `file::is_init()` flag.
Registration order is kept (a list), which also models the iteration of the
`stage2` snapshot.  `Device::create_file` re-enters the VFS, which is not
among the provided sources; per its own doc comment ("If the file already
exist, the function does nothing") it is modelled as inserting a device
file at the path unless one is already there. -/

/-- The source's `DeviceType`. -/
inductive DeviceType where
  | block
  | char
deriving DecidableEq

/-- The file types relevant to device files (`FileType`). -/
inductive FileType where
  | blockDevice
  | charDevice
deriving DecidableEq

/-- The source's `DeviceType::as_file_type` (`device/mod.rs:81`). -/
def as_file_type : DeviceType → FileType
  | .block => .blockDevice
  | .char => .charDevice

/-- The source's `DeviceID`. -/
structure DeviceID where
  dev_type : DeviceType
  major : Nat
  minor : Nat
deriving DecidableEq

/-- The stat fields `Device::create_file` fills in for a device file. -/
structure DevFileStat where
  file_type : FileType
  mode : Nat
  dev_major : Nat
  dev_minor : Nat
deriving DecidableEq

/-- A registry entry: id, device-file path, file mode. -/
structure DevEntry where
  id : DeviceID
  path : String
  mode : Nat
deriving DecidableEq

/-- The device registry with the files-management flag and the created
device files. -/
structure DevRegistry where
  files_init : Bool
  devices : List DevEntry
  files : List (String × DevFileStat)
deriving DecidableEq

/-- The source's `Device::create_file` (`device/mod.rs:231`): create the device file at
`path` with the stat derived from the device, unless a file already exists
there. -/
def dev_create_file (files : List (String × DevFileStat)) (id : DeviceID)
    (path : String) (mode : Nat) : List (String × DevFileStat) :=
  if files.any (fun f => f.1 = path) then files
  else files ++ [(path, ⟨as_file_type id.dev_type, mode, id.major, id.minor⟩)]

/-- The source's `register` (`device/mod.rs:293`): insert into the registry (failing on a
duplicate id, per the function's doc comment — the `utils` hashmap is not
among the sources) and, when files management is initialized, create the
device file. -/
def dev_register (st : DevRegistry) (id : DeviceID) (path : String) (mode : Nat) :
    FdRes DevRegistry :=
  if st.devices.any (fun d => d.id = id) then .err .EEXIST
  else
    let st1 : DevRegistry := { st with devices := st.devices ++ [⟨id, path, mode⟩] }
    if st.files_init then .ok { st1 with files := dev_create_file st1.files id path mode }
    else .ok st1

/-- The effect of initializing files management (`file::is_init()` becomes
`true`). -/
def set_files_init (st : DevRegistry) : DevRegistry :=
  { st with files_init := true }

/-- The source's `stage2` (`device/mod.rs:368`): snapshot `(id, path, mode)` of every
registered device, then create a device file for each.  The preceding
`default::create()` only registers further devices through `register` and
is not embedded; the claim concerns the devices already in the registry. -/
def dev_stage2 (st : DevRegistry) : DevRegistry :=
  { st with
    files := st.devices.foldl (fun fs d => dev_create_file fs d.id d.path d.mode) st.files }

/-! ## `splice` (`kernel/src/syscall/splice.rs`)

The claim's scenario is pipe-to-pipe.  The pipe buffer itself is not among
the provided sources; modelled from the spec (the pipe is a bounded ring of
bytes): a read drains up to `buf.len()` available bytes, a write appends up
to the free space and returns the (possibly short) count.  The control flow
of `splice` — the `ESPIPE` checks, the `i32::MAX` cap, the single read, and
the write loop that re-submits the whole `in_slice` while `i < len` — is
taken verbatim from the source.  The loop is indexed by fuel; `none` means
it did not finish within the given fuel. -/

/-- A pipe: capacity of the ring and the bytes currently buffered. -/
structure PipeBuf where
  capacity : Nat
  data : List Nat
deriving DecidableEq

/-- Modelled from the spec: reading from a pipe returns up to `bufLen` of
the buffered bytes and removes them from the ring. -/
def pipe_read (p : PipeBuf) (bufLen : Nat) : List Nat × PipeBuf :=
  let k := min bufLen p.data.length
  (p.data.take k, { p with data := p.data.drop k })

/-- Modelled from the spec: writing to a pipe appends up to the free space
of the ring and returns the number of bytes accepted (a short count when
the ring fills). -/
def pipe_write (p : PipeBuf) (buf : List Nat) : Nat × PipeBuf :=
  let k := min buf.length (p.capacity - p.data.length)
  (k, { p with data := p.data ++ buf.take k })

/-- The `while i < len` write loop of `splice` (`splice.rs:100`): each
iteration writes the whole `inSlice` (not `inSlice[i..]`) and advances `i`
by the count accepted. -/
def splice_write_loop : Nat → List Nat → Nat → PipeBuf → Option PipeBuf
  | 0, _, _, _ => none
  | fuel + 1, inSlice, i, outp =>
    if i < inSlice.length then
      let w := pipe_write outp inSlice
      splice_write_loop fuel inSlice (i + w.1) w.2
    else some outp

/-- The source's `splice` (`splice.rs:37`) specialized to a pipe input and pipe output
(both file types are `Fifo`, so the `EINVAL` check passes): offsets on a
pipe are `ESPIPE`; the length is capped at `i32::MAX`; the input is read
once into a buffer and the write loop pushes it out.  On success the result
carries the returned byte count and the two pipe states. -/
def splice_pipe (fuel : Nat) (inp outp : PipeBuf) (offIn offOut : Option Nat)
    (len : Nat) : Option (Except Errno (Nat × PipeBuf × PipeBuf)) :=
  if offIn.isSome then some (.error .ESPIPE)
  else if offOut.isSome then some (.error .ESPIPE)
  else
    let len1 := min len I32_MAX
    let rd := pipe_read inp len1
    match splice_write_loop fuel rd.1 0 outp with
    | some outp1 => some (.ok (rd.1.length, rd.2, outp1))
    | none => none

/-! ## Concrete states used by witnesses and counterexamples -/

/-- A memory space with one single-page mapping at `0x1000` whose resolver
always succeeds. -/
def msOnePage : MemSpace :=
  ⟨[⟨0x1000, 1, fun _ => true, fun _ => true⟩]⟩

/-- The table reached by the `fd_dup` test of `fd.rs` right before its
`Min(8)` duplication: descriptors at ids 0, 1 and 16. -/
def fdDupTable : FDTable :=
  [some ⟨0, 0⟩, some ⟨0, 0⟩, none, none, none, none, none, none,
   none, none, none, none, none, none, none, none, some ⟨0, 0⟩]

/-- A table holding exactly the descriptors 0, 1 and 2 (the claim's
scenario). -/
def fdThreeTable : FDTable :=
  [some ⟨0, 0⟩, some ⟨0, 1⟩, some ⟨0, 2⟩]

/-- An input pipe holding two bytes. -/
def pipeInTwo : PipeBuf := ⟨64, [10, 20]⟩

/-- A full output pipe: capacity 1, one byte buffered. -/
def pipeOutFull : PipeBuf := ⟨1, [99]⟩

/-- Seventeen bytes, the spec's end-to-end pipe-splice scenario. -/
def bytes17 : List Nat := [1, 2, 3, 4, 5, 6, 7, 8, 9, 10, 11, 12, 13, 14, 15, 16, 17]

/-! ## Lemmas and theorems -/

/-! ### C1 — transaction drop restores the page table -/

theorem vtx_drop_map_one (st : VTx) (p v f : Nat) :
    vtx_drop (vtx_map_one st p v f) = vtx_drop st := by
  unfold vtx_drop vtx_map_one x86_map
  simp only [List.foldr_append, List.foldr_cons, List.foldr_nil]
  congr 1
  funext w
  simp only [VRollback.apply]
  by_cases h : w = v <;> simp [h]

theorem vtx_drop_unmap_one (st : VTx) (v : Nat) :
    vtx_drop (vtx_unmap_one st v) = vtx_drop st := by
  unfold vtx_drop vtx_unmap_one x86_unmap
  simp only [List.foldr_append, List.foldr_cons, List.foldr_nil]
  congr 1
  funext w
  simp only [VRollback.apply]
  by_cases h : w = v <;> simp [h]

theorem vtx_drop_map_pages (st : VTx) (p v f : Nat) :
    ∀ n, vtx_drop (vtx_map_pages st p v f n) = vtx_drop st := by
  intro n
  induction n with
  | zero => rfl
  | succ k ih => rw [vtx_map_pages, vtx_drop_map_one, ih]

theorem vtx_drop_unmap_pages (st : VTx) (v : Nat) :
    ∀ n, vtx_drop (vtx_unmap_pages st v n) = vtx_drop st := by
  intro n
  induction n with
  | zero => rfl
  | succ k ih => rw [vtx_unmap_pages, vtx_drop_unmap_one, ih]

theorem vtx_drop_apply_op (kernel : Bool) (st : VTx) (op : VOp) :
    vtx_drop (vtx_apply_op kernel st op) = vtx_drop st := by
  cases op with
  | mapOne p v f =>
    simp only [vtx_apply_op, vtx_map]
    split
    · rfl
    · exact vtx_drop_map_one st p v f
  | mapRange p v n f =>
    simp only [vtx_apply_op, vtx_map_range]
    split
    · rfl
    · split
      · simp only [vtx_map]
        split
        · rfl
        · exact vtx_drop_map_one st p v f
      · split
        · rfl
        · exact vtx_drop_map_pages st p v f n
  | unmapOne v =>
    simp only [vtx_apply_op, vtx_unmap]
    split
    · rfl
    · exact vtx_drop_unmap_one st v
  | unmapRange v n =>
    simp only [vtx_apply_op, vtx_unmap_range]
    split
    · rfl
    · split
      · simp only [vtx_unmap]
        split
        · rfl
        · exact vtx_drop_unmap_one st v
      · split
        · rfl
        · exact vtx_drop_unmap_pages st v n

theorem vtx_drop_run (kernel : Bool) (ops : List VOp) :
    ∀ st, vtx_drop (vtx_run kernel st ops) = vtx_drop st := by
  induction ops with
  | nil => intro st; rfl
  | cons op rest ih =>
    intro st
    show vtx_drop (vtx_run kernel (vtx_apply_op kernel st op) rest) = vtx_drop st
    rw [ih, vtx_drop_apply_op]

/-- C1: dropping a `VMemTransaction` that was not committed replays the
rollback tokens in reverse order of acquisition, so that for every virtual
address `v`, `translate v` on the underlying `VMem` equals its value before
the transaction began, whatever sequence of `map`/`map_range`/`unmap`/
`unmap_range` edits (successful or failed) the transaction performed; after
`commit`, dropping the transaction changes nothing: `translate` agrees with
the transaction's final table. -/
theorem vmem_transaction_drop_restores (kernel : Bool) (t0 : VTable)
    (ops : List VOp) (v : Nat) :
    vmem_translate (vtx_drop (vtx_run kernel ⟨t0, []⟩ ops)) v = vmem_translate t0 v
    ∧ vmem_translate (vtx_drop (vtx_commit (vtx_run kernel ⟨t0, []⟩ ops))) v
        = vmem_translate (vtx_run kernel ⟨t0, []⟩ ops).table v := by
  constructor
  · rw [vtx_drop_run]
    rfl
  · rfl

/-! ### C2 — non-kernel transactions and kernelspace edits (claim corrected) -/

theorem usize_mul_eq_of_fit {p : Nat} (hfit : p * PAGE_SIZE ≤ USIZE_MAX) :
    usize_mul p PAGE_SIZE = p * PAGE_SIZE := by
  unfold usize_mul
  exact Nat.mod_eq_of_lt (by omega)

theorem is_kernelspace_eq (v p : Nat) (hfit : p * PAGE_SIZE ≤ USIZE_MAX) :
    is_kernelspace v p = decide (PROCESS_END < v + p * PAGE_SIZE) := by
  unfold is_kernelspace checked_add
  rw [usize_mul_eq_of_fit hfit]
  by_cases h : v + p * PAGE_SIZE ≤ USIZE_MAX
  · simp [h]
  · simp only [if_neg h]
    have h2 : PROCESS_END < v + p * PAGE_SIZE := by
      unfold PROCESS_END USIZE_MAX at *
      omega
    simp [h2]

theorem is_kernelspace_true_of_lt {v p : Nat} (hfit : p * PAGE_SIZE ≤ USIZE_MAX)
    (h : PROCESS_END < v + p * PAGE_SIZE) :
    is_kernelspace v p = true := by
  rw [is_kernelspace_eq v p hfit]
  simpa using h

theorem is_kernelspace_false_of_le {v p : Nat} (h : v + p * PAGE_SIZE ≤ PROCESS_END) :
    is_kernelspace v p = false := by
  have hfit : p * PAGE_SIZE ≤ USIZE_MAX := by
    unfold PROCESS_END at h
    unfold USIZE_MAX
    omega
  rw [is_kernelspace_eq v p hfit]
  simpa using Nat.not_lt.mpr h

theorem vtx_map_one_table (st : VTx) (p v f w : Nat) (h : w ≠ v) :
    (vtx_map_one st p v f).table w = st.table w := by
  simp [vtx_map_one, x86_map, h]

theorem vtx_unmap_one_table (st : VTx) (v w : Nat) (h : w ≠ v) :
    (vtx_unmap_one st v).table w = st.table w := by
  simp [vtx_unmap_one, x86_unmap, h]

theorem vtx_map_pages_untouched (st : VTx) (p v f : Nat) :
    ∀ n w, (∀ i, i < n → w ≠ v + i * PAGE_SIZE) →
      (vtx_map_pages st p v f n).table w = st.table w := by
  intro n
  induction n with
  | zero => intro w _; rfl
  | succ k ih =>
    intro w hw
    rw [vtx_map_pages, vtx_map_one_table _ _ _ _ _ (hw k (Nat.lt_succ_self k))]
    exact ih w (fun i hi => hw i (Nat.lt_succ_of_lt hi))

theorem vtx_unmap_pages_untouched (st : VTx) (v : Nat) :
    ∀ n w, (∀ i, i < n → w ≠ v + i * PAGE_SIZE) →
      (vtx_unmap_pages st v n).table w = st.table w := by
  intro n
  induction n with
  | zero => intro w _; rfl
  | succ k ih =>
    intro w hw
    rw [vtx_unmap_pages, vtx_unmap_one_table _ _ _ (hw k (Nat.lt_succ_self k))]
    exact ih w (fun i hi => hw i (Nat.lt_succ_of_lt hi))

theorem vtx_map_range_one (kernel : Bool) (st : VTx) (phys virt flags : Nat) :
    vtx_map_range kernel st phys virt 1 flags = vtx_map kernel st phys virt flags := by
  rw [vtx_map_range, if_neg (by omega : ¬(1 : Nat) = 0), if_pos rfl]

theorem vtx_unmap_range_one (kernel : Bool) (st : VTx) (virt : Nat) :
    vtx_unmap_range kernel st virt 1 = vtx_unmap kernel st virt := by
  rw [vtx_unmap_range, if_neg (by omega : ¬(1 : Nat) = 0), if_pos rfl]

theorem vtx_map_range_big (kernel : Bool) (st : VTx) (phys virt pages flags : Nat)
    (h0 : pages ≠ 0) (h1 : pages ≠ 1) :
    vtx_map_range kernel st phys virt pages flags =
      if !kernel && is_kernelspace virt pages then (.error .outOfMemory, st)
      else (.ok (), vtx_map_pages st phys virt flags pages) := by
  rw [vtx_map_range, if_neg h0, if_neg h1]

theorem vtx_unmap_range_big (kernel : Bool) (st : VTx) (virt pages : Nat)
    (h0 : pages ≠ 0) (h1 : pages ≠ 1) :
    vtx_unmap_range kernel st virt pages =
      if !kernel && is_kernelspace virt pages then (.error .outOfMemory, st)
      else (.ok (), vtx_unmap_pages st virt pages) := by
  rw [vtx_unmap_range, if_neg h0, if_neg h1]

/-- C2 (amended): on a non-kernel transaction (`KERNEL = false`), `map` and
`unmap` fail with the out-of-memory error, leaving the transaction
untouched, whenever their single page overlaps the kernelspace (its byte
end exceeds `PROCESS_END`), and `map_range`/`unmap_range` do so for every
range whose byte size `pages * PAGE_SIZE` fits in the 32-bit `usize` (the
size is computed in wrapping arithmetic, so for `pages ≥ 2^20` the check is
defeated — see the counterexample); otherwise the operations succeed and
touch only userspace: every touched page lies below `PROCESS_END` and
every address outside the requested range keeps its translation. -/
theorem vmem_nonkernel_kernelspace_oom (st : VTx) (phys virt flags pages : Nat) :
    (PROCESS_END < virt + PAGE_SIZE →
      vtx_map false st phys virt flags = (.error .outOfMemory, st)
      ∧ vtx_unmap false st virt = (.error .outOfMemory, st))
    ∧ (pages * PAGE_SIZE ≤ USIZE_MAX → 1 ≤ pages →
      PROCESS_END < virt + pages * PAGE_SIZE →
      vtx_map_range false st phys virt pages flags = (.error .outOfMemory, st)
      ∧ vtx_unmap_range false st virt pages = (.error .outOfMemory, st))
    ∧ (virt + PAGE_SIZE ≤ PROCESS_END →
      (vtx_map false st phys virt flags).1 = .ok ()
      ∧ (vtx_unmap false st virt).1 = .ok ()
      ∧ ∀ w, w ≠ virt →
          (vtx_map false st phys virt flags).2.table w = st.table w
          ∧ (vtx_unmap false st virt).2.table w = st.table w)
    ∧ (virt + pages * PAGE_SIZE ≤ PROCESS_END →
      (vtx_map_range false st phys virt pages flags).1 = .ok ()
      ∧ (vtx_unmap_range false st virt pages).1 = .ok ()
      ∧ (∀ i, i < pages → virt + i * PAGE_SIZE + PAGE_SIZE ≤ PROCESS_END)
      ∧ ∀ w, (∀ i, i < pages → w ≠ virt + i * PAGE_SIZE) →
          (vtx_map_range false st phys virt pages flags).2.table w = st.table w
          ∧ (vtx_unmap_range false st virt pages).2.table w = st.table w) := by
  have hone : ∀ v : Nat, v + 1 * PAGE_SIZE = v + PAGE_SIZE := by intro v; ring
  refine ⟨?_, ?_, ?_, ?_⟩
  · intro h
    have hk : is_kernelspace virt 1 = true := by
      apply is_kernelspace_true_of_lt (by decide)
      rw [hone]
      exact h
    exact ⟨by simp [vtx_map, hk], by simp [vtx_unmap, hk]⟩
  · intro hfit h1 h2
    have hk : is_kernelspace virt pages = true := is_kernelspace_true_of_lt hfit h2
    rcases Nat.lt_or_ge pages 2 with hp | hp
    · have hp1 : pages = 1 := by omega
      subst hp1
      rw [vtx_map_range_one, vtx_unmap_range_one]
      exact ⟨by simp [vtx_map, hk], by simp [vtx_unmap, hk]⟩
    · have hp0 : pages ≠ 0 := by omega
      have hp1 : pages ≠ 1 := by omega
      rw [vtx_map_range_big _ _ _ _ _ _ hp0 hp1, vtx_unmap_range_big _ _ _ _ hp0 hp1]
      exact ⟨by simp [hk], by simp [hk]⟩
  · intro h
    have hk : is_kernelspace virt 1 = false := by
      apply is_kernelspace_false_of_le
      rw [hone]
      exact h
    refine ⟨by simp [vtx_map, hk], by simp [vtx_unmap, hk], ?_⟩
    intro w hw
    constructor
    · have : vtx_map false st phys virt flags = (.ok (), vtx_map_one st phys virt flags) := by
        simp [vtx_map, hk]
      rw [this]
      exact vtx_map_one_table st phys virt flags w hw
    · have : vtx_unmap false st virt = (.ok (), vtx_unmap_one st virt) := by
        simp [vtx_unmap, hk]
      rw [this]
      exact vtx_unmap_one_table st virt w hw
  · intro h
    have hbound : ∀ i, i < pages → virt + i * PAGE_SIZE + PAGE_SIZE ≤ PROCESS_END := by
      intro i hi
      have h1 : virt + i * PAGE_SIZE + PAGE_SIZE = virt + (i + 1) * PAGE_SIZE := by ring
      have h2 : (i + 1) * PAGE_SIZE ≤ pages * PAGE_SIZE :=
        Nat.mul_le_mul_right _ (Nat.succ_le_of_lt hi)
      omega
    rcases Nat.lt_or_ge pages 2 with hp | hp
    · rcases Nat.lt_or_ge pages 1 with hp0 | hp1
      · have : pages = 0 := by omega
        subst this
        exact ⟨rfl, rfl, hbound, fun w _ => ⟨rfl, rfl⟩⟩
      · have : pages = 1 := by omega
        subst this
        have hk : is_kernelspace virt 1 = false := by
          apply is_kernelspace_false_of_le
          rw [hone]
          rw [hone] at h
          exact h
        have hmap : vtx_map false st phys virt flags
            = (.ok (), vtx_map_one st phys virt flags) := by
          simp [vtx_map, hk]
        have hunmap : vtx_unmap false st virt = (.ok (), vtx_unmap_one st virt) := by
          simp [vtx_unmap, hk]
        rw [vtx_map_range_one, vtx_unmap_range_one, hmap, hunmap]
        refine ⟨rfl, rfl, hbound, ?_⟩
        intro w hw
        have hw0 : w ≠ virt := by
          have := hw 0 (by omega)
          simpa using this
        exact ⟨vtx_map_one_table st phys virt flags w hw0, vtx_unmap_one_table st virt w hw0⟩
    · have hp0 : pages ≠ 0 := by omega
      have hp1 : pages ≠ 1 := by omega
      have hk : is_kernelspace virt pages = false := is_kernelspace_false_of_le h
      rw [vtx_map_range_big _ _ _ _ _ _ hp0 hp1, vtx_unmap_range_big _ _ _ _ hp0 hp1]
      have hcond : (!false && is_kernelspace virt pages) = false := by simp [hk]
      rw [hcond]
      simp only [Bool.false_eq_true, if_false]
      refine ⟨by trivial, by trivial, hbound, ?_⟩
      intro w hw
      exact ⟨vtx_map_pages_untouched st phys virt flags pages w hw,
        vtx_unmap_pages_untouched st virt pages w hw⟩

/-- Witness for C2: mapping a single page at the first kernelspace address
(`PROCESS_END`) on a fresh non-kernel transaction fails with the
out-of-memory error and leaves the transaction untouched. -/
theorem vmem_nonkernel_kernelspace_oom_instance :
    vtx_map false ⟨fun _ => none, []⟩ 0 PROCESS_END 0
      = (.error .outOfMemory, ⟨fun _ => none, []⟩) :=
  ((vmem_nonkernel_kernelspace_oom ⟨fun _ => none, []⟩ 0 PROCESS_END 0 1).1
    (by decide)).1

theorem vtx_map_pages_maps_at (st : VTx) (p v f : Nat) :
    ∀ n i, i < n →
      (vtx_map_pages st p v f n).table (v + i * PAGE_SIZE)
        = some (p + i * PAGE_SIZE, f) := by
  intro n
  induction n with
  | zero => intro i hi; omega
  | succ m ih =>
    intro i hi
    rw [vtx_map_pages]
    by_cases him : i = m
    · subst him
      simp [vtx_map_one, x86_map]
    · have hne : v + i * PAGE_SIZE ≠ v + m * PAGE_SIZE := by
        intro hEq
        apply him
        have hmm : i * PAGE_SIZE = m * PAGE_SIZE := by omega
        exact Nat.eq_of_mul_eq_mul_right (by decide) hmm
      rw [vtx_map_one_table _ _ _ _ _ hne]
      exact ih i (by omega)

/-- Counterexample to C2 as stated: the range `virt = 0, pages = 2^20` has
byte end `2^32 > PROCESS_END`, so a non-kernel `map_range` must fail with
`ENOMEM` under the claim; but the source computes `pages * PAGE_SIZE` in
wrapping 32-bit `usize` arithmetic, the product wraps to 0, `checked_add`
(guarding only the addition) succeeds, `is_kernelspace` reports `false`,
and `map_range` returns `Ok` — installing, among others, a PTE at
`PROCESS_END` itself, the first kernelspace address. -/
theorem vmem_kernelspace_wrap_counterexample :
    PROCESS_END < 0 + 1048576 * PAGE_SIZE
    ∧ is_kernelspace 0 1048576 = false
    ∧ (vtx_map_range false ⟨fun _ => none, []⟩ 0 0 1048576 0).1 = .ok ()
    ∧ (vtx_map_range false ⟨fun _ => none, []⟩ 0 0 1048576 0).2.table PROCESS_END
        = some (786432 * PAGE_SIZE, 0) := by
  have hk : is_kernelspace 0 1048576 = false := by decide
  have hbig : vtx_map_range false ⟨fun _ => none, []⟩ 0 0 1048576 0
      = (.ok (), vtx_map_pages ⟨fun _ => none, []⟩ 0 0 0 1048576) := by
    rw [vtx_map_range_big _ _ _ _ _ _ (by decide) (by decide)]
    simp [hk]
  refine ⟨by decide, hk, ?_, ?_⟩
  · rw [hbig]
  · rw [hbig]
    have he : PROCESS_END = 0 + 786432 * PAGE_SIZE := by decide
    rw [he]
    rw [vtx_map_pages_maps_at ⟨fun _ => none, []⟩ 0 0 0 1048576 786432 (by decide)]
    norm_num

/-! ### C3 — page-fault handling (claim corrected) -/

/-- Counterexample to C3 as stated: a user-mode fault on a non-present page
(`code = 4`: USER bit set, PRESENT bit clear) at an address covered by a
mapping is no kernel-ring violation, so the claim requires delegation and a
`Resolved` result; the source instead returns `Unresolved` because its
early return tests the PRESENT bit of the fault code, not a ring
violation. -/
theorem page_fault_claim_counterexample :
    handle_page_fault msOnePage 0x1000 4 = .unresolved
    ∧ kernelRingViolation 4 = false
    ∧ (get_mapping_for msOnePage.mappings 0x1000).isSome = true := by
  refine ⟨by decide, by decide, by rfl⟩

/-- C3 (amended): `handle_page_fault` returns `Unresolved` exactly when the
fault code's PRESENT bit is clear (the fault was on a non-present page) or
no mapping of the memory space covers `virt`; otherwise it delegates to the
covering mapping at page index `(virt - mapping.begin) / PAGE_SIZE` and,
when the resolver succeeds, updates the virtual memory context for exactly
that page and returns `Resolved`. -/
theorem page_fault_unresolved_characterization (ms : MemSpace) (virt code : Nat) :
    (handle_page_fault ms virt code = .unresolved
      ↔ (code &&& PAGE_FAULT_PRESENT = 0 ∨ get_mapping_for ms.mappings virt = none))
    ∧ ∀ m, get_mapping_for ms.mappings virt = some m →
        code &&& PAGE_FAULT_PRESENT ≠ 0 →
        m.resolve1 ((virt - m.begin) / PAGE_SIZE) = true →
        handle_page_fault ms virt code = .resolved ((virt - m.begin) / PAGE_SIZE) := by
  constructor
  · by_cases hc : code &&& PAGE_FAULT_PRESENT = 0
    · simp [handle_page_fault, hc]
    · cases hm : get_mapping_for ms.mappings virt with
      | none => simp [handle_page_fault, hc, hm]
      | some m =>
        simp only [handle_page_fault, if_neg hc, hm]
        constructor
        · intro hres
          by_cases h1 : m.resolve1 ((virt - m.begin) / PAGE_SIZE)
          · simp [h1] at hres
          · by_cases h2 : m.resolve2 ((virt - m.begin) / PAGE_SIZE)
            · simp [h1, h2] at hres
            · simp [h1, h2] at hres
        · intro hor
          rcases hor with h | h
          · exact absurd h hc
          · simp [hm] at h
  · intro m hm hc h1
    simp [handle_page_fault, hc, hm, h1]

/-- Witness for C3 (amended): a user-mode protection fault (`code = 5`:
PRESENT and WRITE-read bits) on the covered page resolves at page index
0. -/
theorem page_fault_unresolved_characterization_instance :
    handle_page_fault msOnePage 0x1000 5 = .resolved 0 :=
  (page_fault_unresolved_characterization msOnePage 0x1000 5).2
    ⟨0x1000, 1, fun _ => true, fun _ => true⟩ (by rfl) (by decide) (by rfl)

/-! ### C4 — `can_access` (code bug: unconditional `true`) -/

/-- C4 is a bug of the code: `MemSpace::can_access` is a TODO stub that
ignores the memory space, the range and the requested mode and returns
`true` — in particular it returns `true` for ranges covered by no mapping,
where the claim (and the spec's §9 note) requires `false`. -/
theorem can_access_always_true (ms : MemSpace) (ptr size : Nat) (user write : Bool) :
    can_access ms ptr size user write = true := rfl

/-! ### C5 — `create_fd` allocates the lowest free slot -/

theorem getD_set_self {α : Type} :
    ∀ (l : List α) (i : Nat) (a d : α), i < l.length → (l.set i a).getD i d = a := by
  intro l
  induction l with
  | nil => intro i a d h; simp at h
  | cons x xs ih =>
    intro i a d h
    cases i with
    | zero => rfl
    | succ j =>
      simp only [List.set_cons_succ, List.getD_cons_succ]
      exact ih j a d (by simpa using h)

theorem getD_eq_default_of_le {α : Type} :
    ∀ (l : List α) (i : Nat) (d : α), l.length ≤ i → l.getD i d = d := by
  intro l
  induction l with
  | nil => intro i d _; cases i <;> rfl
  | cons x xs ih =>
    intro i d h
    cases i with
    | zero => simp at h
    | succ j =>
      simp only [List.getD_cons_succ]
      exact ih j d (by simpa using h)

theorem getD_take_lt {α : Type} :
    ∀ (l : List α) (k i : Nat) (d : α), i < k → (l.take k).getD i d = l.getD i d := by
  intro l
  induction l with
  | nil => intro k i d _; simp
  | cons x xs ih =>
    intro k i d h
    cases k with
    | zero => omega
    | succ k2 =>
      cases i with
      | zero => rfl
      | succ j =>
        simp only [List.take_succ_cons, List.getD_cons_succ]
        exact ih k2 j d (by omega)

theorem lt_length_of_get?_eq_some {α : Type} {l : List α} {n : Nat} {a : α}
    (h : l.get? n = some a) : n < l.length := by
  by_contra hn
  rw [List.get?_eq_none.mpr (by omega)] at h
  exact Option.noConfusion h

theorem find_hole_free : ∀ (t : FDTable) (i : Nat), find_hole t = some i →
    t.getD i none = none := by
  intro t
  induction t with
  | nil => intro i h; exact Option.noConfusion h
  | cons o rest ih =>
    intro i h
    cases o with
    | none =>
      have : i = 0 := by simpa [find_hole] using h.symm
      subst this
      rfl
    | some fd =>
      simp only [find_hole, Option.map_eq_some'] at h
      obtain ⟨j, hj, hij⟩ := h
      subst hij
      simpa using ih j hj

theorem find_hole_min : ∀ (t : FDTable) (i j : Nat), find_hole t = some i → j < i →
    (t.getD j none).isSome = true := by
  intro t
  induction t with
  | nil => intro i j h; exact fun _ => Option.noConfusion h
  | cons o rest ih =>
    intro i j h hj
    cases o with
    | none =>
      have : i = 0 := by simpa [find_hole] using h.symm
      omega
    | some fd =>
      simp only [find_hole, Option.map_eq_some'] at h
      obtain ⟨i2, hi2, hii⟩ := h
      subst hii
      cases j with
      | zero => rfl
      | succ j2 =>
        simp only [List.getD_cons_succ]
        exact ih i2 j2 hi2 (by omega)

theorem find_hole_none_isSome : ∀ (t : FDTable), find_hole t = none →
    ∀ j, j < t.length → (t.getD j none).isSome = true := by
  intro t
  induction t with
  | nil => intro _ j hj; simp at hj
  | cons o rest ih =>
    intro h j hj
    cases o with
    | none => exact Option.noConfusion h
    | some fd =>
      simp only [find_hole, Option.map_eq_none'] at h
      cases j with
      | zero => rfl
      | succ j2 =>
        simp only [List.getD_cons_succ]
        exact ih h j2 (by simpa using hj)

theorem find_hole_lt_length : ∀ (t : FDTable) (i : Nat), find_hole t = some i →
    i < t.length := by
  intro t
  induction t with
  | nil => intro i h; exact Option.noConfusion h
  | cons o rest ih =>
    intro i h
    cases o with
    | none =>
      have : i = 0 := by simpa [find_hole] using h.symm
      subst this
      simp
    | some fd =>
      simp only [find_hole, Option.map_eq_some'] at h
      obtain ⟨j, hj, hij⟩ := h
      subst hij
      have := ih j hj
      simpa using Nat.succ_lt_succ this

theorem lowestFree_le_length (t : FDTable) : lowestFree t ≤ t.length := by
  unfold lowestFree
  cases hf : find_hole t with
  | none => exact Nat.le_refl _
  | some i => exact Nat.le_of_lt (find_hole_lt_length t i hf)

theorem isFreeSlot_lowestFree (t : FDTable) : isFreeSlot t (lowestFree t) = true := by
  unfold isFreeSlot lowestFree
  cases hf : find_hole t with
  | none => rw [getD_eq_default_of_le t t.length none (Nat.le_refl _)]; rfl
  | some i => rw [find_hole_free t i hf]; rfl

theorem not_isFreeSlot_of_lt_lowestFree (t : FDTable) (j : Nat)
    (hj : j < lowestFree t) : isFreeSlot t j = false := by
  unfold isFreeSlot
  unfold lowestFree at hj
  cases hf : find_hole t with
  | none =>
    rw [hf] at hj
    have h2 := find_hole_none_isSome t hf j hj
    cases hg : t.getD j none with
    | none => rw [hg] at h2; exact Bool.noConfusion h2
    | some fd => rfl
  | some i =>
    rw [hf] at hj
    have := find_hole_min t i j hf hj
    cases hg : (t.getD j none) with
    | none => rw [hg] at this; exact Bool.noConfusion this
    | some fd => rfl

theorem lowestFree_le_of_free (t : FDTable) (i : Nat)
    (h : isFreeSlot t i = true) : lowestFree t ≤ i := by
  by_contra hlt
  have := not_isFreeSlot_of_lt_lowestFree t i (by omega)
  rw [h] at this
  exact Bool.noConfusion this

theorem length_fd_extend_gt (t : FDTable) (id : Nat) : id < (fd_extend t id).length := by
  unfold fd_extend
  by_cases h : id < t.length
  · simp [h]
  · simp only [h, if_false, List.length_append, List.length_replicate]
    omega

theorem get_available_fd_none_eq (t : FDTable) :
    get_available_fd t none =
      match find_hole t with
      | some i => .ok i
      | none => if t.length < OPEN_MAX then .ok t.length else .err .EMFILE := by
  unfold get_available_fd
  simp only [Option.getD_none, List.drop_zero, Nat.not_lt_zero, if_neg, Nat.max_zero]
  rw [if_neg not_false]

/-- C5: `create_fd` allocates the free slot with the lowest index: on any
table not longer than `OPEN_MAX` (spec invariant (iv)), the returned id is
the lowest free slot (free, with every lower slot occupied), slot 0 is
allocated on an empty table, a slot freed by `close_fd` becomes free again
(so it is reused before any higher slot), and when the lowest would-be
index is not below `OPEN_MAX` the call fails with `EMFILE` leaving the
table unchanged. -/
theorem fd_create_lowest_free (t : FDTable) (flags : Int) (ofl : Nat)
    (hlen : t.length ≤ OPEN_MAX) :
    isFreeSlot t (lowestFree t) = true
    ∧ (∀ j, j < lowestFree t → isFreeSlot t j = false)
    ∧ (lowestFree t < OPEN_MAX →
        (create_fd t flags ofl).1 = .ok (lowestFree t)
        ∧ (create_fd t flags ofl).2.getD (lowestFree t) none = some ⟨flags, ofl⟩)
    ∧ (OPEN_MAX ≤ lowestFree t → create_fd t flags ofl = (.err .EMFILE, t))
    ∧ (create_fd ([] : FDTable) flags ofl).1 = .ok 0
    ∧ ∀ (id : Int) (t2 : FDTable), close_fd t id = (.ok (), t2) →
        isFreeSlot t2 id.toNat = true ∧ lowestFree t2 ≤ id.toNat := by
  refine ⟨isFreeSlot_lowestFree t, fun j hj => not_isFreeSlot_of_lt_lowestFree t j hj,
    ?_, ?_, rfl, ?_⟩
  · intro hok
    have hav : get_available_fd t none = .ok (lowestFree t) := by
      rw [get_available_fd_none_eq]
      unfold lowestFree at *
      cases hf : find_hole t with
      | some i => rfl
      | none =>
        rw [hf] at hok
        simp [hok]
    constructor
    · simp [create_fd, hav]
    · simp only [create_fd, hav]
      exact getD_set_self _ _ _ _ (length_fd_extend_gt t (lowestFree t))
  · intro hge
    have hf : find_hole t = none := by
      cases hf : find_hole t with
      | none => rfl
      | some i =>
        have hi := find_hole_lt_length t i hf
        have : lowestFree t = i := by unfold lowestFree; rw [hf]
        omega
    have hlen2 : lowestFree t = t.length := by unfold lowestFree; rw [hf]
    have hav : get_available_fd t none = .err .EMFILE := by
      rw [get_available_fd_none_eq, hf]
      have : ¬ t.length < OPEN_MAX := by omega
      simp [this]
    simp [create_fd, hav]
  · intro id t2 hcl
    unfold close_fd at hcl
    by_cases hid : id < 0
    · rw [if_pos hid] at hcl
      simp at hcl
    rw [if_neg hid] at hcl
    cases hg : t.get? id.toNat with
    | none => rw [hg] at hcl; simp at hcl
    | some o =>
      cases o with
      | none => rw [hg] at hcl; simp at hcl
      | some fd =>
        rw [hg] at hcl
        have ht2 : t2 = (t.set id.toNat none).take (lastSomeLen (t.set id.toNat none)) := by
          have := congrArg Prod.snd hcl
          simpa using this.symm
        have hn : id.toNat < t.length := lt_length_of_get?_eq_some hg
        have hfree : isFreeSlot t2 id.toNat = true := by
          unfold isFreeSlot
          rw [ht2]
          by_cases hL : id.toNat < lastSomeLen (t.set id.toNat none)
          · rw [getD_take_lt _ _ _ _ hL]
            rw [getD_set_self _ _ _ _ (by simpa using hn)]
            rfl
          · rw [getD_eq_default_of_le]
            · rfl
            · have := List.length_take_le (lastSomeLen (t.set id.toNat none))
                (t.set id.toNat none)
              omega
        exact ⟨hfree, lowestFree_le_of_free t2 id.toNat hfree⟩

/-- Witness for C5: on the table `[occupied, free, occupied]`, `create_fd`
allocates slot 1. -/
theorem fd_create_lowest_free_instance :
    (create_fd [some ⟨0, 0⟩, none, some ⟨0, 1⟩] 0 5).1 = .ok 1 :=
  ((fd_create_lowest_free [some ⟨0, 0⟩, none, some ⟨0, 1⟩] 0 5 (by decide)).2.2.1
    (by decide)).1

/-! ### C6 — `duplicate_fd` with a minimum constraint (code bug) -/

/-- C6 is a bug of the code: `get_available_fd` returns the index of the
hole found in the slice `self.0[min..]` relative to `min` (the source maps
the enumeration index `i` instead of `min + i`).  On the table reached by
the in-file `fd_dup` test (descriptors 0, 1 and 16), `duplicate_fd(0,
Min(8), false)` hence returns id 0 — the test right below asserts the
result is `≥ 8` — and on the claim's table holding exactly descriptors
0, 1, 2, the slice `self.0[8..]` is out of bounds and the call panics. -/
theorem duplicate_fd_min_relative_index :
    (duplicate_fd fdDupTable 0 (.minCons 8) false).1 = .ok 0
    ∧ (duplicate_fd fdThreeTable 1 (.minCons 8) false).1 = .panicked := by
  exact ⟨by decide, by decide⟩

/-! ### C7 — the system-wide descriptor counter (code bug) -/

/-- C7 is a bug of the code: `TOTAL_FD` with `increment_total` (which does
return `ENFILE` at the ceiling) and `decrement_total` exist, but no
creation or close path invokes them — `create_fd` succeeds and leaves the
counter untouched even when the counter already sits at `TOTAL_MAX_FD`,
where the claim requires `ENFILE`. -/
theorem create_fd_ignores_total_counter :
    increment_total TOTAL_MAX_FD = .err .ENFILE
    ∧ create_fd_sys ⟨TOTAL_MAX_FD, []⟩ 0 7 = (.ok 0, ⟨TOTAL_MAX_FD, [some ⟨0, 7⟩]⟩) := by
  exact ⟨by decide, by decide⟩

/-! ### C10 — negative and missing ids are `EBADF` -/

theorem get?_of_getD_none :
    ∀ (t : FDTable) (n : Nat), t.getD n none = none →
      t[n]? = none ∨ t[n]? = some none := by
  intro t
  induction t with
  | nil => intro n _; exact Or.inl rfl
  | cons o rest ih =>
    intro n h
    cases n with
    | zero =>
      cases o with
      | none => exact Or.inr (by simp)
      | some fd => exact absurd h (by simp)
    | succ m =>
      simp only [List.getD_cons_succ] at h
      simpa using ih m h

/-- C10: `get_fd`, `get_fd_mut` and `close_fd` reject a negative id with
`EBADF` before inspecting any slot, leaving the table unchanged, exactly as
they do for a nonnegative id whose slot is empty or beyond the table's
length. -/
theorem fd_negative_id_ebadf (t : FDTable) (id : Int) :
    (id < 0 →
      get_fd t id = .err .EBADF ∧ get_fd_mut t id = .err .EBADF
      ∧ close_fd t id = (.err .EBADF, t))
    ∧ (0 ≤ id → t.getD id.toNat none = none →
      get_fd t id = .err .EBADF ∧ get_fd_mut t id = .err .EBADF
      ∧ close_fd t id = (.err .EBADF, t)) := by
  constructor
  · intro h
    exact ⟨by simp [get_fd, h], by simp [get_fd_mut, h], by simp [close_fd, h]⟩
  · intro h0 hfree
    have hid : ¬ id < 0 := by omega
    rcases get?_of_getD_none t id.toNat hfree with hg | hg
    · exact ⟨by simp [get_fd, hid, hg], by simp [get_fd_mut, hid, hg],
        by simp [close_fd, hid, hg]⟩
    · exact ⟨by simp [get_fd, hid, hg], by simp [get_fd_mut, hid, hg],
        by simp [close_fd, hid, hg]⟩

/-- Witness for C10: id `-3` is rejected on a one-entry table; id `7`
(beyond the length) is rejected with the table unchanged. -/
theorem fd_negative_id_ebadf_instance :
    get_fd [some ⟨0, 0⟩] (-3) = .err .EBADF
    ∧ close_fd [some ⟨0, 0⟩] 7 = (.err .EBADF, [some ⟨0, 0⟩]) :=
  ⟨((fd_negative_id_ebadf [some ⟨0, 0⟩] (-3)).1 (by decide)).1,
   ((fd_negative_id_ebadf [some ⟨0, 0⟩] 7).2 (by decide) (by decide)).2.2⟩

/-! ### C8 — staged device-file creation -/

/-- The stat `Device::create_file` derives from a device id and mode. -/
def mkDevStat (id : DeviceID) (mode : Nat) : DevFileStat :=
  ⟨as_file_type id.dev_type, mode, id.major, id.minor⟩

theorem mem_dev_create_file_self (files : List (String × DevFileStat))
    (id : DeviceID) (path : String) (mode : Nat)
    (hfresh : ∀ f ∈ files, f.1 ≠ path) :
    (path, mkDevStat id mode) ∈ dev_create_file files id path mode := by
  unfold dev_create_file
  have hc : files.any (fun f => decide (f.1 = path)) = false := by
    rw [List.any_eq_false]
    intro f hf
    simpa using hfresh f hf
  rw [if_neg (by simp [hc])]
  simp [mkDevStat]

theorem dev_create_file_sub (files : List (String × DevFileStat))
    (id : DeviceID) (path : String) (mode : Nat) (f : String × DevFileStat)
    (hf : f ∈ files) : f ∈ dev_create_file files id path mode := by
  unfold dev_create_file
  split
  · exact hf
  · exact List.mem_append_left _ hf

theorem dev_create_file_paths (files : List (String × DevFileStat))
    (id : DeviceID) (path : String) (mode : Nat) (f : String × DevFileStat)
    (hf : f ∈ dev_create_file files id path mode) : f ∈ files ∨ f.1 = path := by
  unfold dev_create_file at hf
  split at hf
  · exact Or.inl hf
  · rcases List.mem_append.mp hf with h | h
    · exact Or.inl h
    · right
      have := List.mem_singleton.mp h
      rw [this]

theorem foldl_create_preserves :
    ∀ (ds : List DevEntry) (fs : List (String × DevFileStat)) (f : String × DevFileStat),
      f ∈ fs → f ∈ ds.foldl (fun a d => dev_create_file a d.id d.path d.mode) fs := by
  intro ds
  induction ds with
  | nil => intro fs f hf; exact hf
  | cons e rest ih =>
    intro fs f hf
    exact ih _ f (dev_create_file_sub fs e.id e.path e.mode f hf)

theorem foldl_create_mem :
    ∀ (ds : List DevEntry) (fs : List (String × DevFileStat)) (d : DevEntry),
      d ∈ ds → (∀ f ∈ fs, f.1 ≠ d.path) →
      (∀ e ∈ ds, e.path = d.path → e = d) →
      (d.path, mkDevStat d.id d.mode)
        ∈ ds.foldl (fun a e => dev_create_file a e.id e.path e.mode) fs := by
  intro ds
  induction ds with
  | nil => intro fs d hd; exact absurd hd (List.not_mem_nil d)
  | cons e rest ih =>
    intro fs d hd hfresh huniq
    simp only [List.foldl_cons]
    by_cases hpe : e.path = d.path
    · have hed : e = d := huniq e (List.mem_cons_self e rest) hpe
      subst hed
      exact foldl_create_preserves rest _ _
        (mem_dev_create_file_self fs e.id e.path e.mode hfresh)
    · rcases List.mem_cons.mp hd with heq | hrest
      · exact absurd (congrArg DevEntry.path heq.symm) hpe
      · apply ih _ d hrest
        · intro f hf
          rcases dev_create_file_paths fs e.id e.path e.mode f hf with h | h
          · exact hfresh f h
          · rw [h]; exact hpe
        · intro e2 he2 hp2
          exact huniq e2 (List.mem_cons_of_mem e he2) hp2

/-- C8: a device registered while files management is uninitialized gets no
device file at registration time; a later `stage2()` creates, for every
device already in the registry (with a path no other device or existing
file uses), a device file at the registered path whose stat derives the
file type from the device kind, carries its major and minor numbers and its
registered mode; a device registered after files management is initialized
gets its device file immediately from `register`. -/
theorem device_stage2_creates_files (st : DevRegistry) (id : DeviceID)
    (path : String) (mode : Nat) :
    (st.files_init = false → ∀ st1, dev_register st id path mode = .ok st1 →
      st1.files = st.files ∧ (⟨id, path, mode⟩ : DevEntry) ∈ st1.devices)
    ∧ (∀ d : DevEntry, d ∈ st.devices →
        (∀ f ∈ st.files, f.1 ≠ d.path) →
        (∀ e ∈ st.devices, e.path = d.path → e = d) →
        (d.path, mkDevStat d.id d.mode) ∈ (dev_stage2 st).files)
    ∧ (st.files_init = true → (∀ f ∈ st.files, f.1 ≠ path) →
        ∀ st1, dev_register st id path mode = .ok st1 →
        (path, mkDevStat id mode) ∈ st1.files) := by
  refine ⟨?_, ?_, ?_⟩
  · intro hinit st1 hreg
    unfold dev_register at hreg
    split at hreg
    · exact FdRes.noConfusion hreg
    · rw [hinit] at hreg
      simp only [Bool.false_eq_true, if_false] at hreg
      cases hreg
      exact ⟨rfl, List.mem_append_right _ (List.mem_singleton.mpr rfl)⟩
  · intro d hd hfresh huniq
    unfold dev_stage2
    exact foldl_create_mem st.devices st.files d hd hfresh huniq
  · intro hinit hfresh st1 hreg
    unfold dev_register at hreg
    split at hreg
    · exact FdRes.noConfusion hreg
    · rw [hinit] at hreg
      simp only [if_true] at hreg
      cases hreg
      exact mem_dev_create_file_self st.files id path mode hfresh

/-- Witness for C8: register a block device `(8, 0)` at `/dev/sda` with
mode `0o644` before files init (no file appears), initialize files, run
`stage2`: the device file exists at `/dev/sda` with `BlockDevice` type,
major 8, minor 0 and the registered mode. -/
theorem device_stage2_creates_files_instance :
    dev_register ⟨false, [], []⟩ ⟨.block, 8, 0⟩ "/dev/sda" 420
      = .ok ⟨false, [⟨⟨.block, 8, 0⟩, "/dev/sda", 420⟩], []⟩
    ∧ ("/dev/sda", (⟨.blockDevice, 420, 8, 0⟩ : DevFileStat))
      ∈ (dev_stage2 (set_files_init ⟨false, [⟨⟨.block, 8, 0⟩, "/dev/sda", 420⟩], []⟩)).files :=
  ⟨by decide,
   (device_stage2_creates_files
      (set_files_init ⟨false, [⟨⟨.block, 8, 0⟩, "/dev/sda", 420⟩], []⟩)
      ⟨.block, 8, 0⟩ "/dev/sda" 420).2.1
    ⟨⟨.block, 8, 0⟩, "/dev/sda", 420⟩ (by decide) (by decide) (by decide)⟩

/-! ### C9 — `splice` from a pipe (claim corrected) -/

theorem splice_loop_stuck :
    ∀ (fuel i : Nat) (outp : PipeBuf), outp.capacity ≤ outp.data.length → i < 2 →
      splice_write_loop fuel [10, 20] i outp = none := by
  intro fuel
  induction fuel with
  | zero => intros; rfl
  | succ f ih =>
    intro i outp hfull hi
    rw [splice_write_loop, if_pos (by simpa using hi)]
    have hz : outp.capacity - outp.data.length = 0 := by omega
    have hw1 : pipe_write outp [10, 20] = (0, { outp with data := outp.data ++ [] }) := by
      simp [pipe_write, hz]
    simp only [hw1, Nat.add_zero, List.append_nil]
    exact ih i outp hfull hi

/-- Counterexample to C9 as stated: an input pipe holding n = 2 bytes and a
requested length of 100 ≥ n, but a full output pipe.  The claim requires
splice to transfer the 2 bytes and return 2; instead the write loop accepts
0 bytes each round without ever advancing `i` (`splice_loop_stuck` shows
this for every fuel), so the call never returns — here evaluated at fuel
100. -/
theorem splice_claim_counterexample :
    splice_pipe 100 pipeInTwo pipeOutFull none none 100 = none := by
  unfold splice_pipe
  simp only [Option.isSome_none, Bool.false_eq_true, if_false]
  have hrd : (pipe_read pipeInTwo (min 100 I32_MAX)).1 = [10, 20] := by decide
  rw [hrd]
  rw [splice_loop_stuck 100 0 pipeOutFull (by decide) (by decide)]

/-- C9 (amended): when the input pipe holds `n` bytes, no offsets are
supplied, the requested length is at least `n` (and `n` fits in `i32`),
and the output descriptor accepts all `n` bytes in a single write (its
pipe has at least `n` bytes of free space), `splice` reads the input once,
writes once, transfers exactly the `n` bytes to the output and returns
`n`, leaving the input ring empty; when the output accepts only part of
the bytes read, the loop re-submits the whole buffer without advancing and
`splice` does not return while the output remains full. -/
theorem splice_single_write_transfer (inp outp : PipeBuf) (len fuel : Nat)
    (hlen : inp.data.length ≤ len)
    (hcap32 : inp.data.length ≤ I32_MAX)
    (hspace : inp.data.length + outp.data.length ≤ outp.capacity)
    (hfuel : 2 ≤ fuel) :
    splice_pipe fuel inp outp none none len
      = some (.ok (inp.data.length, { inp with data := [] },
          { outp with data := outp.data ++ inp.data })) := by
  obtain ⟨f, rfl⟩ : ∃ f, fuel = f + 2 := ⟨fuel - 2, by omega⟩
  have hk : min (min len I32_MAX) inp.data.length = inp.data.length :=
    Nat.min_eq_right (Nat.le_min.mpr ⟨hlen, hcap32⟩)
  have hw : pipe_write outp inp.data
      = (inp.data.length, { outp with data := outp.data ++ inp.data }) := by
    unfold pipe_write
    have hmin : min inp.data.length (outp.capacity - outp.data.length)
        = inp.data.length := Nat.min_eq_left (by omega)
    rw [hmin]
    simp [List.take_length]
  have hloop : splice_write_loop (f + 2) inp.data 0 outp
      = some { outp with data := outp.data ++ inp.data } := by
    rcases Nat.eq_zero_or_pos inp.data.length with h0 | hpos
    · have hnil : inp.data = [] := List.eq_nil_of_length_eq_zero h0
      rw [hnil]
      show splice_write_loop (f + 1 + 1) [] 0 outp = _
      rw [splice_write_loop]
      simp
    · show splice_write_loop (f + 1 + 1) inp.data 0 outp = _
      rw [splice_write_loop, if_pos (by simpa using hpos)]
      simp only [hw, Nat.zero_add]
      rw [splice_write_loop, if_neg (by simp)]
  unfold splice_pipe
  simp only [Option.isSome_none, Bool.false_eq_true, if_false]
  unfold pipe_read
  simp only [hk, List.take_length, List.drop_length]
  rw [hloop]

/-- Witness for C9 (amended): the spec's end-to-end scenario — 17 bytes in
the input pipe, an empty 64 KiB output pipe, requested length 100: splice
returns 17, the input ring is empty and the output holds the 17 bytes. -/
theorem splice_single_write_transfer_instance :
    splice_pipe 2 ⟨65536, bytes17⟩ ⟨65536, []⟩ none none 100
      = some (.ok (17, ⟨65536, []⟩, ⟨65536, bytes17⟩)) :=
  splice_single_write_transfer ⟨65536, bytes17⟩ ⟨65536, []⟩ 100 2
    (by decide) (by decide) (by decide) (by decide)
